import Mathlib

/-!
Verification of the batch media-acquisition pipeline in `src/main.py`
(`handle_document` and its helpers).

The handler is embedded shallowly as a pure function from the incoming
message (an optional attached document) and a `World` of external-effect
oracles (the ffmpeg invocation, the Telegram `send_video` call, and the
progress-message `delete` call) to the trace of observable events it
performs, together with the per-item outcomes and whether an uncaught
exception escaped the per-item loop.

Modelling conventions:
* Python string operations (`strip`, `lower`, `endswith`) are modelled on
  the underlying character lists; `lower` is modelled as ASCII lowercasing,
  which agrees with Python on all the suffixes involved (`.mpd`, `.m3u8`,
  `.txt`).
* `subprocess.run(ffmpeg_cmd, check=True)` either returns (exit status 0),
  raises `CalledProcessError` (non-zero exit status, the only exception the
  code catches at line 118), or raises an `OSError` if the executable
  cannot be launched; the three cases are the `TranscodeResult` oracle.
* `bot.send_video` either succeeds or raises an exception caught by the
  `except Exception as e` at line 132; `progress_msg.delete()` either
  succeeds or raises an exception (which the code does not catch anywhere).
* `tempfile.TemporaryDirectory()` removes the directory and its contents on
  every exit of the `with` block, including exceptional exit; accordingly
  every trace that contains `workspaceCreate` ends with `workspaceDelete`.
* The per-item outcomes (`Delivered`, `TranscodeFailed`, `DeliveryFailed`)
  record which terminal path of lines 115-134 the iteration took; an
  iteration aborted by an uncaught exception records no outcome.
-/

/-- Result of `subprocess.run(ffmpeg_cmd, check=True)` at line 117 of
`src/main.py`: normal return, a `CalledProcessError` carrying the tool
diagnostics, or a launch failure (e.g. `FileNotFoundError` when ffmpeg is
not on the PATH), which is not a `CalledProcessError`. -/
inductive TranscodeResult
  | ok
  | nonzeroExit (diag : String)
  | launchFailure (msg : String)
deriving DecidableEq

/-- Result of `bot.send_video` at line 126: normal return or an exception
(caught by `except Exception as e` at line 132) with detail `str(e)`. -/
inductive DeliveryResult
  | ok
  | exn (detail : String)
deriving DecidableEq

/-- Result of `progress_msg.delete()` at lines 120 and 134: normal return
or an exception (not caught anywhere in `handle_document`). -/
inductive RetractResult
  | ok
  | exn (msg : String)
deriving DecidableEq

/-- Oracles for the external effects, indexed by the 1-based item index of
the loop at line 100 (each index performs at most one ffmpeg run, one
delivery and one retraction). -/
structure World where
  transcode : Nat → String → TranscodeResult
  deliver : Nat → DeliveryResult
  retract : Nat → RetractResult

/-- Terminal outcome of one item of the batch, per the branches of lines
115-134 of `src/main.py`. -/
inductive Outcome
  | Delivered
  | TranscodeFailed (reason : String)
  | DeliveryFailed (reason : String)
deriving DecidableEq

/-- Observable events performed by `handle_document`, one constructor per
effectful call site of `src/main.py` (replies, progress message lifecycle,
chat action, file writes inside the workspace, workspace lifecycle). -/
inductive Event
  | warnNoDocument
  | warnNotTxt
  | workspaceCreate
  | workspaceDelete
  | fileWrite (name : String)
  | replyNoValidUrls
  | replyStart (count : Nat)
  | progressCreate (index total : Nat) (url : String)
  | chatAction (index : Nat)
  | transcodeFailNotice (url : String)
  | sendVideo (index total : Nat)
  | deliveryFailNotice (index : Nat) (detail : String)
  | progressRetract (index : Nat)
  | replyAllDone
deriving DecidableEq

/-- Characters stripped by Python `str.strip()` with no argument (the
characters for which `str.isspace()` holds). -/
def pyWhitespace : List Char :=
  [' ', '\t', '\n', '\x0b', '\x0c', '\x0d',
   '\x1c', '\x1d', '\x1e', '\x1f', '\x85', '\xa0',
   ' ', ' ', ' ', ' ', ' ', ' ', ' ',
   ' ', ' ', ' ', ' ', ' ',
   ' ', ' ', ' ', ' ', '　']

/-- Whether Python `str.strip()` removes this character. -/
def isPySpace (c : Char) : Bool := pyWhitespace.contains c

/-- Python `line.strip()`: remove leading and trailing whitespace. -/
def pyStrip (s : String) : String :=
  ⟨(((s.data.dropWhile isPySpace).reverse).dropWhile isPySpace).reverse⟩

/-- Python `s.lower()`, modelled as ASCII lowercasing (all suffixes the
code compares against are ASCII). -/
def pyLower (s : String) : String := ⟨s.data.map Char.toLower⟩

/-- Python `s.endswith(suffix)`: suffix test on the character sequence. -/
def pyEndsWith (s suffix : String) : Bool := suffix.data.isSuffixOf s.data

/-- The filter condition of the list comprehension at line 88:
`line.strip().lower().endswith((".mpd", ".m3u8"))`. -/
def validLine (line : String) : Bool :=
  pyEndsWith (pyLower (pyStrip line)) ".mpd" ||
  pyEndsWith (pyLower (pyStrip line)) ".m3u8"

/-- The list comprehension at line 88 of `src/main.py`:
`[line.strip() for line in lines if line.strip().lower().endswith((".mpd", ".m3u8"))]`. -/
def filterUrls (lines : List String) : List String :=
  (lines.filter validLine).map pyStrip

/-- Spec-side predicate, following the spec text of §6: a line is kept when
its whitespace-stripped form ends, case-insensitively, in `.mpd` or
`.m3u8`. Stated via lowercasing both the string and the suffix. -/
def specKeepsLine (line : String) : Bool :=
  pyEndsWith (pyLower (pyStrip line)) (pyLower (".mpd")) ||
  pyEndsWith (pyLower (pyStrip line)) (pyLower (".m3u8"))

/-- The output filename `video_{index}.mp4` of line 102, relative to the
workspace directory. -/
def videoFile (index : Nat) : String := "video_" ++ toString index ++ ".mp4"

/-- Text of the per-item transcode-failure reply at line 119. -/
def transcodeFailText (url : String) : String :=
  "❌ Failed to download or convert URL:\n" ++ url

/-- Text of the per-item delivery-failure reply at line 133; the error
detail is appended at the end. -/
def deliveryFailText (index : Nat) (detail : String) : String :=
  ("❌ Failed to send video " ++ toString index ++ ".\nError: ") ++ detail

/-- Message text sent for each reply-class event, exactly as in
`src/main.py` (events that are not text messages map to `none`). -/
def messageText : Event → Option String
  | .warnNoDocument => some ("⚠️ No document detected. Please send a TXT file with URLs.")
  | .warnNotTxt => some ("⚠️ Please send a file with .txt extension containing URLs.")
  | .replyNoValidUrls =>
      some ("❌ No valid mpd or m3u8 URLs found in the file.\nPlease check the file and try again.")
  | .replyStart n => some ("🔎 Found *" ++ toString n ++ "* valid URLs. Starting downloads...")
  | .progressCreate i t u =>
      some ("⏳ Downloading (" ++ toString i ++ "/" ++ toString t ++ "):\n" ++ u)
  | .transcodeFailNotice u => some (transcodeFailText u)
  | .sendVideo i t => some ("🎬 Video " ++ toString i ++ " of " ++ toString t)
  | .deliveryFailNotice i d => some (deliveryFailText i d)
  | .replyAllDone => some ("✅ All downloads processed.")
  | _ => none

/-- One iteration of the loop at lines 100-134: emit the progress message
and the chat action, run ffmpeg, and branch exactly as the code does.
Returns the events of the iteration and `some outcome` when the iteration
ran to its end (`continue` or loop bottom), `none` when an uncaught
exception escaped it (ffmpeg launch failure, or `progress_msg.delete()`
raising). -/
def processItem (w : World) (index total : Nat) (url : String) :
    List Event × Option Outcome :=
  match w.transcode index url with
  | .launchFailure _ =>
      ([.progressCreate index total url, .chatAction index], none)
  | .nonzeroExit diag =>
      match w.retract index with
      | .ok =>
          ([.progressCreate index total url, .chatAction index,
            .fileWrite (videoFile index), .transcodeFailNotice url,
            .progressRetract index], some (.TranscodeFailed diag))
      | .exn _ =>
          ([.progressCreate index total url, .chatAction index,
            .fileWrite (videoFile index), .transcodeFailNotice url], none)
  | .ok =>
      match w.deliver index with
      | .ok =>
          match w.retract index with
          | .ok =>
              ([.progressCreate index total url, .chatAction index,
                .fileWrite (videoFile index), .sendVideo index total,
                .progressRetract index], some .Delivered)
          | .exn _ =>
              ([.progressCreate index total url, .chatAction index,
                .fileWrite (videoFile index), .sendVideo index total], none)
      | .exn detail =>
          match w.retract index with
          | .ok =>
              ([.progressCreate index total url, .chatAction index,
                .fileWrite (videoFile index), .deliveryFailNotice index detail,
                .progressRetract index], some (.DeliveryFailed detail))
          | .exn _ =>
              ([.progressCreate index total url, .chatAction index,
                .fileWrite (videoFile index), .deliveryFailNotice index detail],
               none)

/-- Whether the transcode oracle reports a launch failure. -/
def TranscodeResult.isLaunch : TranscodeResult → Bool
  | .launchFailure _ => true
  | _ => false

/-- An iteration completes (no uncaught exception) iff ffmpeg could be
launched and the retraction call returned normally. -/
def itemNonFatal (w : World) (index : Nat) (url : String) : Bool :=
  !(w.transcode index url).isLaunch && (w.retract index == .ok)

/-- The outcome an iteration records when it completes, as a function of
the oracles (the `launchFailure` row is never used by a completed
iteration). -/
def itemOutcome (w : World) (index : Nat) (url : String) : Outcome :=
  match w.transcode index url with
  | .ok =>
      match w.deliver index with
      | .ok => .Delivered
      | .exn detail => .DeliveryFailed detail
  | .nonzeroExit diag => .TranscodeFailed diag
  | .launchFailure msg => .TranscodeFailed msg

/-- Result of running the per-item loop: its events, the recorded
outcomes, and whether an uncaught exception aborted it. -/
structure LoopOut where
  events : List Event
  outcomes : List Outcome
  aborted : Bool
deriving DecidableEq

/-- The loop at lines 100-134: process items sequentially starting at
1-based index `i`; stop (and mark the run aborted) at the first iteration
that an uncaught exception escapes. -/
def runItems (w : World) (total : Nat) : Nat → List String → LoopOut
  | _, [] => ⟨[], [], false⟩
  | i, u :: rest =>
      match processItem w i total u with
      | (evs, some oc) =>
          let r := runItems w total (i + 1) rest
          ⟨evs ++ r.events, oc :: r.outcomes, r.aborted⟩
      | (evs, none) => ⟨evs, [], true⟩

/-- The incoming attachment: `update.message.document`, with its
`file_name` and the lines read from the downloaded file (line 85,
`f.readlines()`; each line still carries its trailing newline, which
`strip()` removes). -/
structure Document where
  file_name : String
  lines : List String
deriving DecidableEq

/-- Result of one invocation of `handle_document`: its event trace, the
per-item outcomes, and whether an uncaught exception escaped the loop. -/
structure RunResult where
  events : List Event
  outcomes : List Outcome
  fatal : Bool
deriving DecidableEq

/-- Shallow embedding of `handle_document` (lines 66-136 of
`src/main.py`), for an authorized caller (the `owner_only` decorator is
the transport-boundary guard of spec §1 and is outside the core):
document checks, workspace creation, URL filtering, the per-item loop, the
completion reply, and the workspace removal performed by the
`TemporaryDirectory` context manager on every exit (also the exceptional
one). -/
def handle_document (doc : Option Document) (w : World) : RunResult :=
  match doc with
  | none => ⟨[.warnNoDocument], [], false⟩
  | some d =>
      if pyEndsWith (pyLower d.file_name) ".txt" then
        let urls := filterUrls d.lines
        if urls = [] then
          ⟨[.workspaceCreate, .fileWrite ("urls.txt"), .replyNoValidUrls,
            .workspaceDelete], [], false⟩
        else
          let r := runItems w urls.length 1 urls
          ⟨[.workspaceCreate, .fileWrite ("urls.txt"), .replyStart urls.length]
             ++ r.events
             ++ (if r.aborted then [] else [.replyAllDone])
             ++ [.workspaceDelete],
           r.outcomes, r.aborted⟩
      else ⟨[.warnNotTxt], [], false⟩

/-- The validated URL list of a run, `urls` at line 88 (empty when the
message is rejected before parsing). -/
def urlsOf : Option Document → List String
  | none => []
  | some d => filterUrls d.lines

/-- Expected outcome list for items starting at index `i`, one outcome per
URL in order. -/
def expectedOutcomes (w : World) : Nat → List String → List Outcome
  | _, [] => []
  | i, u :: rest => itemOutcome w i u :: expectedOutcomes w (i + 1) rest

/-- Every item starting at index `i` completes without an uncaught
exception. -/
def allNonFatal (w : World) : Nat → List String → Bool
  | _, [] => true
  | i, u :: rest => itemNonFatal w i u && allNonFatal w (i + 1) rest

/-- Concatenation of the per-item event blocks starting at index `i`. -/
def blockJoin (w : World) (total : Nat) : Nat → List String → List Event
  | _, [] => []
  | i, u :: rest => (processItem w i total u).1 ++ blockJoin w total (i + 1) rest

/-- Files present in the workspace after replaying a trace: file writes
add a file, the workspace removal (which deletes the directory and all its
contents) removes them all. -/
def filesAfter (evs : List Event) : List String :=
  evs.foldl
    (fun fs e =>
      match e with
      | .fileWrite p => p :: fs
      | .workspaceDelete => []
      | _ => fs)
    []

/-- Event `a` occurs (at least once) before every occurrence of event `b`
in the trace. -/
def Precedes (a b : Event) (tr : List Event) : Prop :=
  ∀ pre post : List Event, tr = pre ++ b :: post → a ∈ pre

/-- A world identical to `w` except that the diagnostic carried by every
non-zero ffmpeg exit is blanked; used to state that the tool diagnostic is
never surfaced in the event trace. -/
def scrubDiag (w : World) : World :=
  { w with
    transcode := fun i u =>
      match w.transcode i u with
      | .nonzeroExit _ => .nonzeroExit ("")
      | r => r }

/-- A world in which every external call succeeds. -/
def wAllOk : World := ⟨fun _ _ => .ok, fun _ => .ok, fun _ => .ok⟩

/-- A world in which ffmpeg exits non-zero for item 1 and everything else
succeeds. -/
def wTranscodeFail1 : World :=
  ⟨fun i _ => if i = 1 then .nonzeroExit ("exit status 1") else .ok,
   fun _ => .ok, fun _ => .ok⟩

/-- A world in which delivery of item 1 raises and everything else
succeeds. -/
def wDeliverFail1 : World :=
  ⟨fun _ _ => .ok, fun i => if i = 1 then .exn ("file too large") else .ok,
   fun _ => .ok⟩

/-- A world in which ffmpeg cannot be launched for item 1 and everything
else succeeds. -/
def wLaunchFail1 : World :=
  ⟨fun i _ => if i = 1 then .launchFailure ("ffmpeg not found") else .ok,
   fun _ => .ok, fun _ => .ok⟩

/-- A world in which retracting the progress message of item 1 raises and
everything else succeeds. -/
def wRetractFail1 : World :=
  ⟨fun _ _ => .ok, fun _ => .ok,
   fun i => if i = 1 then .exn ("message to delete not found") else .ok⟩

/-- A world in which ffmpeg exits non-zero for item 3 only. -/
def wMixed : World :=
  ⟨fun i _ => if i = 3 then .nonzeroExit ("network error") else .ok,
   fun _ => .ok, fun _ => .ok⟩

/-- A two-URL input file. -/
def docTwo : Document := ⟨"urls.txt", ["http://h/a.mpd\n", "http://h/b.mpd\n"]⟩

/-- The three-URL input of the spec example (§8). -/
def docThree : Document :=
  ⟨"urls.txt", ["http://h/a.mpd\n", "http://h/b.m3u8\n", "http://h/bad.mpd\n"]⟩

/-- An input file with no valid manifest URL. -/
def docJunk : Document := ⟨"urls.txt", ["no manifests here\n"]⟩

/-- A single-URL input file. -/
def docOne : Document := ⟨"list.txt", ["http://h/one.mpd\n"]⟩

theorem processItem_snd (w : World) (i t : Nat) (u : String) :
    (processItem w i t u).2 =
      if itemNonFatal w i u then some (itemOutcome w i u) else none := by
  rcases htr : w.transcode i u with _ | d | m <;>
    rcases hret : w.retract i with _ | m2 <;>
    rcases hdel : w.deliver i with _ | d2 <;>
    simp_all [processItem, itemOutcome, itemNonFatal, TranscodeResult.isLaunch]

theorem processItem_snd_nonFatal {w : World} {i t : Nat} {u : String}
    (h : itemNonFatal w i u = true) :
    (processItem w i t u).2 = some (itemOutcome w i u) := by
  rw [processItem_snd, h]; rfl

theorem processItem_snd_fatal {w : World} {i t : Nat} {u : String}
    (h : itemNonFatal w i u = false) :
    (processItem w i t u).2 = none := by
  rw [processItem_snd, h]; rfl

theorem mem_processItem_create {w : World} {i t : Nat} {u : String} {j t' : Nat} {v : String}
    (h : Event.progressCreate j t' v ∈ (processItem w i t u).1) :
    j = i ∧ t' = t ∧ v = u := by
  rcases htr : w.transcode i u with _ | d | m <;>
    rcases hret : w.retract i with _ | m2 <;>
    rcases hdel : w.deliver i with _ | d2 <;>
    simp_all [processItem]

theorem processItem_create_mem (w : World) (i t : Nat) (u : String) :
    Event.progressCreate i t u ∈ (processItem w i t u).1 := by
  rcases htr : w.transcode i u with _ | d | m <;>
    rcases hret : w.retract i with _ | m2 <;>
    rcases hdel : w.deliver i with _ | d2 <;>
    simp_all [processItem]

theorem mem_processItem_send {w : World} {i t : Nat} {u : String} {j t' : Nat}
    (h : Event.sendVideo j t' ∈ (processItem w i t u).1) : j = i := by
  rcases htr : w.transcode i u with _ | d | m <;>
    rcases hret : w.retract i with _ | m2 <;>
    rcases hdel : w.deliver i with _ | d2 <;>
    simp_all [processItem]

theorem mem_processItem_deliveryFail {w : World} {i t : Nat} {u : String} {j : Nat} {d : String}
    (h : Event.deliveryFailNotice j d ∈ (processItem w i t u).1) : j = i := by
  rcases htr : w.transcode i u with _ | dg | m <;>
    rcases hret : w.retract i with _ | m2 <;>
    rcases hdel : w.deliver i with _ | d2 <;>
    simp_all [processItem]

theorem mem_processItem_retract {w : World} {i t : Nat} {u : String} {j : Nat}
    (h : Event.progressRetract j ∈ (processItem w i t u).1) : j = i := by
  rcases htr : w.transcode i u with _ | d | m <;>
    rcases hret : w.retract i with _ | m2 <;>
    rcases hdel : w.deliver i with _ | d2 <;>
    simp_all [processItem]

theorem processItem_retract_mem {w : World} {i : Nat} {u : String} (t : Nat)
    (h : itemNonFatal w i u = true) :
    Event.progressRetract i ∈ (processItem w i t u).1 := by
  rcases htr : w.transcode i u with _ | d | m <;>
    rcases hret : w.retract i with _ | m2 <;>
    rcases hdel : w.deliver i with _ | d2 <;>
    simp_all [processItem, itemNonFatal, TranscodeResult.isLaunch]

theorem replyAllDone_not_mem_processItem (w : World) (i t : Nat) (u : String) :
    Event.replyAllDone ∉ (processItem w i t u).1 := by
  rcases htr : w.transcode i u with _ | d | m <;>
    rcases hret : w.retract i with _ | m2 <;>
    rcases hdel : w.deliver i with _ | d2 <;>
    simp_all [processItem]

theorem runItems_cons_nonFatal {w : World} {i : Nat} {u : String} (t : Nat) (rest : List String)
    (h : itemNonFatal w i u = true) :
    runItems w t i (u :: rest) =
      ⟨(processItem w i t u).1 ++ (runItems w t (i + 1) rest).events,
       itemOutcome w i u :: (runItems w t (i + 1) rest).outcomes,
       (runItems w t (i + 1) rest).aborted⟩ := by
  have hp : processItem w i t u = ((processItem w i t u).1, some (itemOutcome w i u)) := by
    rw [← processItem_snd_nonFatal h]
  simp only [runItems]
  rw [hp]

theorem runItems_cons_fatal {w : World} {i : Nat} {u : String} (t : Nat) (rest : List String)
    (h : itemNonFatal w i u = false) :
    runItems w t i (u :: rest) = ⟨(processItem w i t u).1, [], true⟩ := by
  have hp : processItem w i t u = ((processItem w i t u).1, none) := by
    rw [← processItem_snd_fatal h]
  simp only [runItems]
  rw [hp]

theorem expectedOutcomes_length (w : World) : ∀ (i : Nat) (us : List String),
    (expectedOutcomes w i us).length = us.length
  | _, [] => rfl
  | i, _ :: rest => by
      simp [expectedOutcomes, expectedOutcomes_length w (i + 1) rest]

theorem runItems_nonFatal (w : World) (t : Nat) : ∀ (i : Nat) (us : List String),
    allNonFatal w i us = true →
    runItems w t i us = ⟨blockJoin w t i us, expectedOutcomes w i us, false⟩
  | _, [], _ => rfl
  | i, u :: rest, h => by
      rw [allNonFatal, Bool.and_eq_true] at h
      rw [runItems_cons_nonFatal t rest h.1, runItems_nonFatal w t (i + 1) rest h.2]
      simp [blockJoin, expectedOutcomes]

theorem runItems_split (w : World) (t : Nat) : ∀ (i : Nat) (us vs : List String),
    allNonFatal w i us = true →
    runItems w t i (us ++ vs) =
      ⟨blockJoin w t i us ++ (runItems w t (i + us.length) vs).events,
       expectedOutcomes w i us ++ (runItems w t (i + us.length) vs).outcomes,
       (runItems w t (i + us.length) vs).aborted⟩
  | i, [], vs, _ => by simp [blockJoin, expectedOutcomes]
  | i, u :: rest, vs, h => by
      rw [allNonFatal, Bool.and_eq_true] at h
      rw [List.cons_append, runItems_cons_nonFatal t (rest ++ vs) h.1,
          runItems_split w t (i + 1) rest vs h.2]
      have harith : i + (rest.length + 1) = i + 1 + rest.length := by omega
      simp [blockJoin, expectedOutcomes, harith, List.append_assoc]

theorem mem_runItems {w : World} {t : Nat} {e : Event} : ∀ {i : Nat} {vs : List String},
    e ∈ (runItems w t i vs).events →
    ∃ j u, i ≤ j ∧ e ∈ (processItem w j t u).1 := by
  intro i vs
  induction vs generalizing i with
  | nil => intro h; simp [runItems] at h
  | cons u rest ih =>
      intro h
      by_cases hnf : itemNonFatal w i u = true
      · rw [runItems_cons_nonFatal t rest hnf] at h
        rcases List.mem_append.mp h with h1 | h2
        · exact ⟨i, u, Nat.le_refl i, h1⟩
        · rcases ih h2 with ⟨j, u', hij, hm⟩
          exact ⟨j, u', Nat.le_trans (Nat.le_succ i) hij, hm⟩
      · rw [runItems_cons_fatal t rest (Bool.eq_false_iff.mpr hnf)] at h
        exact ⟨i, u, Nat.le_refl i, h⟩

theorem mem_blockJoin {w : World} {t : Nat} {e : Event} : ∀ {i : Nat} {us : List String},
    e ∈ blockJoin w t i us →
    ∃ j u, i ≤ j ∧ j < i + us.length ∧ e ∈ (processItem w j t u).1 := by
  intro i us
  induction us generalizing i with
  | nil => intro h; simp [blockJoin] at h
  | cons u rest ih =>
      intro h
      rcases List.mem_append.mp h with h1 | h2
      · exact ⟨i, u, Nat.le_refl i, by simp [Nat.lt_add_of_pos_right], h1⟩
      · rcases ih h2 with ⟨j, u', hij, hjlt, hm⟩
        refine ⟨j, u', Nat.le_trans (Nat.le_succ i) hij, ?_, hm⟩
        simpa [List.length_cons, Nat.add_comm, Nat.add_assoc, Nat.add_left_comm] using hjlt

theorem allNonFatal_append (w : World) : ∀ (i : Nat) (us vs : List String),
    allNonFatal w i (us ++ vs) =
      (allNonFatal w i us && allNonFatal w (i + us.length) vs)
  | i, [], vs => by simp [allNonFatal]
  | i, u :: rest, vs => by
      have harith : i + (rest.length + 1) = i + 1 + rest.length := by omega
      simp only [List.cons_append, allNonFatal, List.append_eq,
        allNonFatal_append w (i + 1) rest vs,
        List.length_cons, Bool.and_assoc, harith]

theorem runItems_not_aborted {w : World} {t : Nat} : ∀ {i : Nat} {u : String}
    {rest : List String},
    (runItems w t i (u :: rest)).aborted = false →
    itemNonFatal w i u = true ∧ (runItems w t (i + 1) rest).aborted = false := by
  intro i u rest h
  by_cases hnf : itemNonFatal w i u = true
  · rw [runItems_cons_nonFatal t rest hnf] at h
    exact ⟨hnf, h⟩
  · rw [runItems_cons_fatal t rest (Bool.eq_false_iff.mpr hnf)] at h
    simp at h

theorem runItems_retract_last (w : World) (t : Nat) : ∀ (i : Nat) (vs : List String),
    vs ≠ [] → (runItems w t i vs).aborted = false →
    Event.progressRetract (i + vs.length - 1) ∈ (runItems w t i vs).events := by
  intro i vs
  induction vs generalizing i with
  | nil => intro h; exact absurd rfl h
  | cons u rest ih =>
      intro _ hab
      rcases runItems_not_aborted hab with ⟨hnf, hab'⟩
      rw [runItems_cons_nonFatal t rest hnf]
      rcases rest with _ | ⟨v, rest'⟩
      · simp only [List.length_cons, List.length_nil, Nat.zero_add, Nat.add_sub_cancel]
        exact List.mem_append.mpr (Or.inl (processItem_retract_mem t hnf))
      · have hm := ih (i + 1) (by simp) hab'
        have harith : i + 1 + (v :: rest').length - 1 = i + (v :: rest').length.succ - 1 := by
          simp only [List.length_cons]; omega
        rw [harith] at hm
        exact List.mem_append.mpr (Or.inr hm)

theorem precedes_of_not_mem {a b : Event} {tr : List Event} (hb : b ∉ tr) :
    Precedes a b tr := by
  intro pre post h
  exact absurd (h ▸ List.mem_append.mpr (Or.inr (List.mem_cons_self b post))) hb

theorem precedes_append_left {a b : Event} {xs ys : List Event}
    (hb : b ∉ xs) (h : Precedes a b ys) : Precedes a b (xs ++ ys) := by
  intro pre post hsplit
  rcases List.append_eq_append_iff.mp hsplit with ⟨m, hpre, hys⟩ | ⟨m, hxs, hm⟩
  · subst hpre
    exact List.mem_append.mpr (Or.inr (h m post hys))
  · rcases m with _ | ⟨x, m'⟩
    · have hys : ys = [] ++ b :: post := by simpa using hm.symm
      exact absurd (h [] post hys) (List.not_mem_nil a)
    · injection hm with h1 h2
      have hbmem : b ∈ xs := by
        rw [hxs, h1]
        exact List.mem_append.mpr (Or.inr (List.mem_cons_self x m'))
      exact absurd hbmem hb

theorem precedes_append_of_mem {a b : Event} {xs : List Event} (ys : List Event)
    (ha : a ∈ xs) (hb : b ∉ xs) : Precedes a b (xs ++ ys) := by
  intro pre post hsplit
  rcases List.append_eq_append_iff.mp hsplit with ⟨m, hpre, _⟩ | ⟨m, hxs, hm⟩
  · subst hpre
    exact List.mem_append.mpr (Or.inl ha)
  · rcases m with _ | ⟨x, m'⟩
    · rw [List.append_nil] at hxs
      exact hxs ▸ ha
    · injection hm with h1 h2
      have hbmem : b ∈ xs := by
        rw [hxs, h1]
        exact List.mem_append.mpr (Or.inr (List.mem_cons_self x m'))
      exact absurd hbmem hb

theorem precedes_append_right {a b : Event} {xs ys : List Event}
    (h : Precedes a b xs) (hb : b ∉ ys) : Precedes a b (xs ++ ys) := by
  intro pre post hsplit
  rcases List.append_eq_append_iff.mp hsplit with ⟨m, _, hys⟩ | ⟨m, hxs, hm⟩
  · exact absurd (hys ▸ List.mem_append.mpr (Or.inr (List.mem_cons_self b post))) hb
  · rcases m with _ | ⟨x, m'⟩
    · have hys : ys = b :: post := by simpa using hm.symm
      exact absurd (by rw [hys]; exact List.mem_cons_self b post : b ∈ ys) hb
    · injection hm with h1 h2
      refine h pre m' ?_
      rw [hxs, h1]

theorem create_not_mem_processItem {w : World} {i t : Nat} {u : String} {j tt : Nat}
    {u' : String} (hj : j ≠ i) :
    Event.progressCreate j tt u' ∉ (processItem w i t u).1 := by
  intro hmem
  exact hj (mem_processItem_create hmem).1

theorem runItems_precedes (w : World) (t : Nat) : ∀ (vs : List String) (i j tt : Nat)
    (u' : String), i ≤ j + 1 →
    Precedes (.progressRetract (j + 1)) (.progressCreate (j + 2) tt u')
      (runItems w t i vs).events := by
  intro vs
  induction vs with
  | nil =>
      intro i j tt u' _
      exact precedes_of_not_mem (List.not_mem_nil _)
  | cons u rest ih =>
      intro i j tt u' hij
      by_cases hnf : itemNonFatal w i u = true
      · rw [runItems_cons_nonFatal t rest hnf]
        rcases Nat.eq_or_lt_of_le hij with heq | hlt
        · exact precedes_append_of_mem _
            (heq ▸ processItem_retract_mem t hnf)
            (create_not_mem_processItem (by omega))
        · exact precedes_append_left (create_not_mem_processItem (by omega))
            (ih (i + 1) j tt u' (by omega))
      · rw [runItems_cons_fatal t rest (Bool.eq_false_iff.mpr hnf)]
        exact precedes_of_not_mem (create_not_mem_processItem (by omega))

theorem scrubDiag_itemNonFatal (w : World) (i : Nat) (u : String) :
    itemNonFatal (scrubDiag w) i u = itemNonFatal w i u := by
  rcases htr : w.transcode i u with _ | d | m <;>
    simp_all [itemNonFatal, scrubDiag, TranscodeResult.isLaunch]

theorem scrubDiag_processItem_events (w : World) (i t : Nat) (u : String) :
    (processItem (scrubDiag w) i t u).1 = (processItem w i t u).1 := by
  rcases htr : w.transcode i u with _ | d | m <;>
    rcases hret : w.retract i with _ | m2 <;>
    rcases hdel : w.deliver i with _ | d2 <;>
    simp_all [processItem, scrubDiag]

theorem scrubDiag_runItems (w : World) (t : Nat) : ∀ (vs : List String) (i : Nat),
    (runItems (scrubDiag w) t i vs).events = (runItems w t i vs).events ∧
    (runItems (scrubDiag w) t i vs).aborted = (runItems w t i vs).aborted := by
  intro vs
  induction vs with
  | nil => intro i; exact ⟨rfl, rfl⟩
  | cons u rest ih =>
      intro i
      by_cases hnf : itemNonFatal w i u = true
      · rw [runItems_cons_nonFatal t rest hnf,
            runItems_cons_nonFatal t rest ((scrubDiag_itemNonFatal w i u).trans hnf)]
        rcases ih (i + 1) with ⟨he, ha⟩
        exact ⟨by rw [scrubDiag_processItem_events, he], ha⟩
      · have hnf' : itemNonFatal w i u = false := Bool.eq_false_iff.mpr hnf
        rw [runItems_cons_fatal t rest hnf',
            runItems_cons_fatal t rest ((scrubDiag_itemNonFatal w i u).trans hnf')]
        exact ⟨scrubDiag_processItem_events w i t u, rfl⟩

theorem scrubDiag_handle_events (doc : Option Document) (w : World) :
    (handle_document doc (scrubDiag w)).events = (handle_document doc w).events := by
  rcases doc with _ | d
  · rfl
  · simp only [handle_document]
    by_cases htxt : pyEndsWith (pyLower d.file_name) ".txt" = true
    · simp only [htxt, if_true]
      by_cases hurls : filterUrls d.lines = []
      · simp [hurls]
      · rcases scrubDiag_runItems w (filterUrls d.lines).length (filterUrls d.lines) 1
          with ⟨he, ha⟩
        simp [hurls, he, ha]
    · simp [htxt]

theorem handle_document_valid {d : Document} {w : World}
    (htxt : pyEndsWith (pyLower d.file_name) ".txt" = true)
    (hne : filterUrls d.lines ≠ []) :
    handle_document (some d) w =
      ⟨[.workspaceCreate, .fileWrite ("urls.txt"),
        .replyStart (filterUrls d.lines).length]
         ++ (runItems w (filterUrls d.lines).length 1 (filterUrls d.lines)).events
         ++ (if (runItems w (filterUrls d.lines).length 1 (filterUrls d.lines)).aborted
             then [] else [.replyAllDone])
         ++ [.workspaceDelete],
       (runItems w (filterUrls d.lines).length 1 (filterUrls d.lines)).outcomes,
       (runItems w (filterUrls d.lines).length 1 (filterUrls d.lines)).aborted⟩ := by
  simp only [handle_document, htxt, if_true, if_neg hne]

theorem handle_document_split {d : Document} {w : World} {k : Nat} {url : String}
    (htxt : pyEndsWith (pyLower d.file_name) ".txt" = true)
    (hget : (filterUrls d.lines)[k]? = some url)
    (hpre : allNonFatal w 1 ((filterUrls d.lines).take k) = true) :
    handle_document (some d) w =
      ⟨[.workspaceCreate, .fileWrite ("urls.txt"),
        .replyStart (filterUrls d.lines).length]
         ++ (blockJoin w (filterUrls d.lines).length 1 ((filterUrls d.lines).take k)
             ++ (runItems w (filterUrls d.lines).length (k + 1)
                   ((filterUrls d.lines).drop k)).events)
         ++ (if (runItems w (filterUrls d.lines).length (k + 1)
                   ((filterUrls d.lines).drop k)).aborted
             then [] else [.replyAllDone])
         ++ [.workspaceDelete],
       expectedOutcomes w 1 ((filterUrls d.lines).take k)
         ++ (runItems w (filterUrls d.lines).length (k + 1)
               ((filterUrls d.lines).drop k)).outcomes,
       (runItems w (filterUrls d.lines).length (k + 1)
         ((filterUrls d.lines).drop k)).aborted⟩ := by
  have hlen : k < (filterUrls d.lines).length := by
    rcases List.getElem?_eq_some_iff.mp hget with ⟨h, _⟩
    exact h
  have hne : filterUrls d.lines ≠ [] :=
    List.ne_nil_of_length_pos (Nat.lt_of_le_of_lt (Nat.zero_le k) hlen)
  have htk : ((filterUrls d.lines).take k).length = k := by
    simp [List.length_take, Nat.min_eq_left (Nat.le_of_lt hlen)]
  have hsplit := runItems_split w (filterUrls d.lines).length 1
    ((filterUrls d.lines).take k) ((filterUrls d.lines).drop k) hpre
  rw [List.take_append_drop, htk, Nat.add_comm 1 k] at hsplit
  rw [handle_document_valid htxt hne, hsplit]

theorem drop_cons_of_getElem {l : List String} {k : Nat} {url : String}
    (hget : l[k]? = some url) :
    l.drop k = url :: l.drop (k + 1) := by
  rcases List.getElem?_eq_some_iff.mp hget with ⟨h, hv⟩
  rw [List.drop_eq_getElem_cons h, hv]

theorem replyAllDone_notin_runItems (w : World) (t i : Nat) (vs : List String) :
    Event.replyAllDone ∉ (runItems w t i vs).events := by
  intro h
  rcases mem_runItems h with ⟨j, u, _, hm⟩
  exact replyAllDone_not_mem_processItem w j t u hm

theorem replyAllDone_notin_blockJoin (w : World) (t i : Nat) (us : List String) :
    Event.replyAllDone ∉ blockJoin w t i us := by
  intro h
  rcases mem_blockJoin h with ⟨j, u, _, _, hm⟩
  exact replyAllDone_not_mem_processItem w j t u hm

theorem sendVideo_notin_runItems {w : World} {t i : Nat} {vs : List String} {j t' : Nat}
    (hj : j < i) : Event.sendVideo j t' ∉ (runItems w t i vs).events := by
  intro h
  rcases mem_runItems h with ⟨j', u, hij, hm⟩
  have := mem_processItem_send hm
  omega

theorem sendVideo_notin_blockJoin {w : World} {t i : Nat} {us : List String} {j t' : Nat}
    (hj : i + us.length ≤ j) : Event.sendVideo j t' ∉ blockJoin w t i us := by
  intro h
  rcases mem_blockJoin h with ⟨j', u, _, hlt, hm⟩
  have := mem_processItem_send hm
  omega

theorem deliveryFail_notin_runItems {w : World} {t i : Nat} {vs : List String} {j : Nat}
    {dd : String} (hj : j < i) :
    Event.deliveryFailNotice j dd ∉ (runItems w t i vs).events := by
  intro h
  rcases mem_runItems h with ⟨j', u, hij, hm⟩
  have := mem_processItem_deliveryFail hm
  omega

theorem deliveryFail_notin_blockJoin {w : World} {t i : Nat} {us : List String} {j : Nat}
    {dd : String} (hj : i + us.length ≤ j) :
    Event.deliveryFailNotice j dd ∉ blockJoin w t i us := by
  intro h
  rcases mem_blockJoin h with ⟨j', u, _, hlt, hm⟩
  have := mem_processItem_deliveryFail hm
  omega

theorem create_notin_blockJoin {w : World} {t i : Nat} {us : List String} {j tt : Nat}
    {u' : String} (hj : i + us.length ≤ j) :
    Event.progressCreate j tt u' ∉ blockJoin w t i us := by
  intro h
  rcases mem_blockJoin h with ⟨j', u, _, hlt, hm⟩
  have := (mem_processItem_create hm).1
  omega

theorem mem_ifAllDone {c : Bool} {e : Event}
    (h : e ∈ (if c then ([] : List Event) else [Event.replyAllDone])) :
    e = Event.replyAllDone := by
  rcases c with _ | _ <;> simp_all

/-- Decomposition of a run around item `k + 1` (0-based position `k` in the
URL list), when every earlier item completed and item `k + 1` itself
completes: the trace is the header, the blocks of the first `k` items, the
block of item `k + 1`, the run of the remaining items, the conditional
completion reply and the workspace removal. -/
theorem handle_document_at {d : Document} {w : World} {k : Nat} {url : String}
    (htxt : pyEndsWith (pyLower d.file_name) ".txt" = true)
    (hget : (filterUrls d.lines)[k]? = some url)
    (hpre : allNonFatal w 1 ((filterUrls d.lines).take k) = true)
    (hnf : itemNonFatal w (k + 1) url = true) :
    handle_document (some d) w =
      ⟨[.workspaceCreate, .fileWrite ("urls.txt"),
        .replyStart (filterUrls d.lines).length]
         ++ (blockJoin w (filterUrls d.lines).length 1 ((filterUrls d.lines).take k)
             ++ ((processItem w (k + 1) (filterUrls d.lines).length url).1
                 ++ (runItems w (filterUrls d.lines).length (k + 2)
                       ((filterUrls d.lines).drop (k + 1))).events))
         ++ (if (runItems w (filterUrls d.lines).length (k + 2)
                   ((filterUrls d.lines).drop (k + 1))).aborted
             then [] else [.replyAllDone])
         ++ [.workspaceDelete],
       expectedOutcomes w 1 ((filterUrls d.lines).take k)
         ++ (itemOutcome w (k + 1) url
             :: (runItems w (filterUrls d.lines).length (k + 2)
                   ((filterUrls d.lines).drop (k + 1))).outcomes),
       (runItems w (filterUrls d.lines).length (k + 2)
         ((filterUrls d.lines).drop (k + 1))).aborted⟩ := by
  rw [handle_document_split htxt hget hpre, drop_cons_of_getElem hget,
      runItems_cons_nonFatal _ _ hnf]

theorem getElem?_append_cons {α : Type} (xs : List α) (y : α) (ys : List α) :
    (xs ++ y :: ys)[xs.length]? = some y := by
  rw [List.getElem?_append_right (Nat.le_refl xs.length)]
  simp


/-- C9: URL filtering keeps exactly those input lines whose
whitespace-stripped form ends, case-insensitively, in `.mpd` or `.m3u8`;
every other line is silently dropped before the batch loop, and the kept
URLs retain their original relative order (the result is the stripped image
of a subsequence of the input). -/
theorem c9_url_filtering (lines : List String) :
    filterUrls lines = (lines.filter specKeepsLine).map pyStrip ∧
    List.Sublist (filterUrls lines) (lines.map pyStrip) ∧
    (∀ u : String, u ∈ filterUrls lines ↔
      ∃ line, line ∈ lines ∧ specKeepsLine line = true ∧ u = pyStrip line) := by
  have hpred : specKeepsLine = validLine := by
    funext line
    have hmpd : pyLower (".mpd") = ".mpd" := by decide
    have hm3u8 : pyLower (".m3u8") = ".m3u8" := by decide
    rw [specKeepsLine, validLine, hmpd, hm3u8]
  refine ⟨by rw [filterUrls, hpred], ?_, ?_⟩
  · rw [filterUrls]
    exact (List.filter_sublist lines).map pyStrip
  · intro u
    rw [hpred]
    simp only [filterUrls, List.mem_map, List.mem_filter]
    constructor
    · rintro ⟨line, ⟨hmem, hv⟩, hu⟩
      exact ⟨line, hmem, hv, hu.symm⟩
    · rintro ⟨line, hmem, hv, hu⟩
      exact ⟨line, ⟨hmem, hv⟩, hu.symm⟩

/-- C10: an incoming message with no attached document, or whose document
filename does not end (case-insensitively) in `.txt`, is answered with the
corresponding warning and nothing else happens: no workspace, no URL
parsing, no transcode, no delivery, no outcomes. -/
theorem c10_document_checks (w : World) (d : Document)
    (h : pyEndsWith (pyLower d.file_name) ".txt" = false) :
    handle_document none w = ⟨[.warnNoDocument], [], false⟩ ∧
    handle_document (some d) w = ⟨[.warnNotTxt], [], false⟩ := by
  refine ⟨rfl, ?_⟩
  simp [handle_document, h]

theorem c10_document_checks_witness :
    pyEndsWith (pyLower (Document.mk ("video.pdf") ["http://h/a.mpd"]).file_name)
      ".txt" = false ∧
    (handle_document none wAllOk = ⟨[.warnNoDocument], [], false⟩ ∧
     handle_document (some (Document.mk ("video.pdf") ["http://h/a.mpd"])) wAllOk
       = ⟨[.warnNotTxt], [], false⟩) :=
  ⟨by decide, c10_document_checks wAllOk ⟨"video.pdf", ["http://h/a.mpd"]⟩ (by decide)⟩

/-- C3 counterexample: on an input whose lines are filtered down to zero
valid URLs, the handler does signal `NoValidUrls` and processes no items,
but the workspace IS created (the temporary directory of line 79 is opened
before the URL filtering at line 88 in order to download the input file),
contradicting the statement that no workspace is created. -/
theorem c3_counterexample :
    handle_document (some docJunk) wAllOk =
      ⟨[.workspaceCreate, .fileWrite ("urls.txt"), .replyNoValidUrls,
        .workspaceDelete], [], false⟩ ∧
    Event.workspaceCreate ∈ (handle_document (some docJunk) wAllOk).events := by
  exact ⟨by decide, by decide⟩

/-- C3 amended: when the input list is empty or is filtered down to zero
valid URLs, the controller signals `NoValidUrls` and processes no items —
no progress message, no transcode, no delivery, no outcome — but the
workspace temporary directory has already been created (it receives the
downloaded input file) and is deleted again before the handler returns. -/
theorem c3_no_valid_urls (w : World) (d : Document)
    (htxt : pyEndsWith (pyLower d.file_name) ".txt" = true)
    (hempty : filterUrls d.lines = []) :
    handle_document (some d) w =
      ⟨[.workspaceCreate, .fileWrite ("urls.txt"), .replyNoValidUrls,
        .workspaceDelete], [], false⟩ := by
  simp [handle_document, htxt, hempty]

theorem c3_no_valid_urls_witness :
    (pyEndsWith (pyLower docJunk.file_name) ".txt" = true ∧
     filterUrls docJunk.lines = []) ∧
    handle_document (some docJunk) wTranscodeFail1 =
      ⟨[.workspaceCreate, .fileWrite ("urls.txt"), .replyNoValidUrls,
        .workspaceDelete], [], false⟩ :=
  ⟨⟨by decide, by decide⟩,
   c3_no_valid_urls wTranscodeFail1 docJunk (by decide) (by decide)⟩

theorem filesAfter_append_delete (xs : List Event) :
    filesAfter (xs ++ [Event.workspaceDelete]) = [] := by
  simp [filesAfter, List.foldl_append]

/-- C5: on every exit path that created the workspace — success, partial
failure, or an uncaught exception aborting the loop — the last event is
the workspace removal (the `TemporaryDirectory` scope exit, which deletes
the directory and its contents), and replaying the trace leaves no file of
the job alive. -/
theorem c5_workspace_deleted (doc : Option Document) (w : World)
    (h : Event.workspaceCreate ∈ (handle_document doc w).events) :
    filesAfter (handle_document doc w).events = [] ∧
    (handle_document doc w).events.getLast? = some Event.workspaceDelete := by
  rcases doc with _ | d
  · simp [handle_document] at h
  · by_cases htxt : pyEndsWith (pyLower d.file_name) ".txt" = true
    · by_cases hempty : filterUrls d.lines = []
      · have hform : handle_document (some d) w =
            ⟨[.workspaceCreate, .fileWrite ("urls.txt"), .replyNoValidUrls,
              .workspaceDelete], [], false⟩ := by
          simp [handle_document, htxt, hempty]
        rw [hform]
        exact ⟨rfl, rfl⟩
      · rw [handle_document_valid htxt hempty]
        constructor
        · exact filesAfter_append_delete _
        · exact List.getLast?_concat _
    · rw [handle_document] at h
      simp [Bool.eq_false_iff.mpr htxt] at h

theorem c5_workspace_deleted_witness :
    Event.workspaceCreate ∈ (handle_document (some docOne) wAllOk).events ∧
    (filesAfter (handle_document (some docOne) wAllOk).events = [] ∧
     (handle_document (some docOne) wAllOk).events.getLast?
       = some Event.workspaceDelete) :=
  ⟨by decide, c5_workspace_deleted (some docOne) wAllOk (by decide)⟩

/-- C6: for every pair of consecutive items, the progress message of item
`j + 1` is retracted before the progress message of item `j + 2` is
created, and the progress message of the last item is retracted before the
batch-completion message is sent (both stated as `Precedes`, which holds
vacuously when the later event never occurs). -/
theorem c6_progress_ordering (doc : Option Document) (w : World) :
    (∀ (j tt : Nat) (u' : String),
        Precedes (Event.progressRetract (j + 1))
          (Event.progressCreate (j + 2) tt u')
          (handle_document doc w).events) ∧
    Precedes (Event.progressRetract (urlsOf doc).length) Event.replyAllDone
      (handle_document doc w).events := by
  rcases doc with _ | d
  · exact ⟨fun j tt u' => precedes_of_not_mem (by simp [handle_document]),
      precedes_of_not_mem (by simp [handle_document])⟩
  · by_cases htxt : pyEndsWith (pyLower d.file_name) ".txt" = true
    · by_cases hempty : filterUrls d.lines = []
      · have hform : handle_document (some d) w =
            ⟨[.workspaceCreate, .fileWrite ("urls.txt"), .replyNoValidUrls,
              .workspaceDelete], [], false⟩ := by
          simp [handle_document, htxt, hempty]
        rw [hform]
        exact ⟨fun j tt u' => precedes_of_not_mem (by simp),
          precedes_of_not_mem (by simp)⟩
      · rw [handle_document_valid htxt hempty]
        have hassoc : ∀ (p l c dl : List Event),
            p ++ l ++ c ++ dl = p ++ (l ++ (c ++ dl)) := by
          intro p l c dl
          simp [List.append_assoc]
        have hassoc2 : ∀ (p l c dl : List Event),
            p ++ l ++ c ++ dl = (p ++ l) ++ (c ++ dl) := by
          intro p l c dl
          simp [List.append_assoc]
        constructor
        · intro j tt u'
          rw [hassoc]
          refine precedes_append_left (by simp)
            (precedes_append_right
              (runItems_precedes w _ _ 1 j tt u' (by omega)) ?_)
          intro hmem
          rcases List.mem_append.mp hmem with hc | hd
          · exact absurd (mem_ifAllDone hc) (by simp)
          · simp at hd
        · by_cases hab : (runItems w (filterUrls d.lines).length 1
              (filterUrls d.lines)).aborted = true
          · refine precedes_of_not_mem ?_
            intro hmem
            simp only [hab, if_true, List.mem_append] at hmem
            rcases hmem with ((hp | hl) | hc) | hd
            · simp at hp
            · exact replyAllDone_notin_runItems w _ 1 _ hl
            · simp at hc
            · simp at hd
          · have hab' : (runItems w (filterUrls d.lines).length 1
                (filterUrls d.lines)).aborted = false := Bool.eq_false_iff.mpr hab
            have hn1 : 1 + (filterUrls d.lines).length - 1
                = (filterUrls d.lines).length := by omega
            have hret := runItems_retract_last w (filterUrls d.lines).length 1
              (filterUrls d.lines) hempty hab'
            rw [hn1] at hret
            have hurls : urlsOf (some d) = filterUrls d.lines := rfl
            rw [hurls, hassoc2]
            refine precedes_append_of_mem _
              (List.mem_append.mpr (Or.inr hret)) ?_
            intro hmem
            rcases List.mem_append.mp hmem with hp | hl
            · simp at hp
            · exact replyAllDone_notin_runItems w _ 1 _ hl
    · have hform : handle_document (some d) w = ⟨[.warnNotTxt], [], false⟩ := by
        simp [handle_document, Bool.eq_false_iff.mpr htxt]
      rw [hform]
      exact ⟨fun j tt u' => precedes_of_not_mem (by simp),
        precedes_of_not_mem (by simp)⟩

/-- C4: for every accepted non-empty URL list, when no uncaught exception
occurs (every item either completes or fails through the caught
`CalledProcessError`/delivery-exception paths, with any mix of failures),
the run records exactly one outcome per URL, in input-list order, and
emits exactly one batch-completion reply. -/
theorem c4_batch_outcomes (d : Document) (w : World)
    (htxt : pyEndsWith (pyLower d.file_name) ".txt" = true)
    (hne : filterUrls d.lines ≠ [])
    (hnf : allNonFatal w 1 (filterUrls d.lines) = true) :
    (handle_document (some d) w).outcomes
      = expectedOutcomes w 1 (filterUrls d.lines) ∧
    (handle_document (some d) w).outcomes.length = (filterUrls d.lines).length ∧
    (handle_document (some d) w).events.count Event.replyAllDone = 1 := by
  rw [handle_document_valid htxt hne,
      runItems_nonFatal w (filterUrls d.lines).length 1 (filterUrls d.lines) hnf]
  refine ⟨rfl, expectedOutcomes_length w 1 _, ?_⟩
  have hbj : Event.replyAllDone
      ∉ blockJoin w (filterUrls d.lines).length 1 (filterUrls d.lines) :=
    replyAllDone_notin_blockJoin w _ 1 _
  have h1 : Event.replyAllDone ∉ [Event.workspaceCreate,
      Event.fileWrite ("urls.txt"), Event.replyStart (filterUrls d.lines).length] := by
    simp
  have h2 : Event.replyAllDone ∉ [Event.workspaceDelete] := by simp
  simp [List.count_append, List.count_eq_zero.mpr hbj, List.count_eq_zero.mpr h1,
    List.count_eq_zero.mpr h2]

theorem c4_batch_outcomes_witness :
    (pyEndsWith (pyLower docThree.file_name) ".txt" = true ∧
     filterUrls docThree.lines ≠ [] ∧
     allNonFatal wMixed 1 (filterUrls docThree.lines) = true) ∧
    ((handle_document (some docThree) wMixed).outcomes
       = expectedOutcomes wMixed 1 (filterUrls docThree.lines) ∧
     (handle_document (some docThree) wMixed).outcomes.length
       = (filterUrls docThree.lines).length ∧
     (handle_document (some docThree) wMixed).events.count Event.replyAllDone = 1) :=
  ⟨⟨by decide, by decide, by decide⟩,
   c4_batch_outcomes docThree wMixed (by decide) (by decide) (by decide)⟩

/-- C1: when the transcode step of item `k + 1` fails with a non-zero exit
status (and every earlier item completed, and the retraction call of this
item returns), no delivery attempt is made for the item (no `send_video`
call and no delivery-failure notice with its index), the generic failure
notice naming the URL is emitted with exactly the text of line 119, the
outcome recorded at position `k` is `TranscodeFailed`, the progress
message is retracted, the next item (when there is one) still gets its
progress message, and the whole event trace is independent of the tool
diagnostic (scrubbing every diagnostic leaves it unchanged). -/
theorem c1_transcode_failure (d : Document) (w : World) (k : Nat) (url diag : String)
    (htxt : pyEndsWith (pyLower d.file_name) ".txt" = true)
    (hget : (filterUrls d.lines)[k]? = some url)
    (hpre : allNonFatal w 1 ((filterUrls d.lines).take k) = true)
    (htr : w.transcode (k + 1) url = .nonzeroExit diag)
    (hret : w.retract (k + 1) = .ok) :
    (handle_document (some d) w).outcomes[k]? = some (Outcome.TranscodeFailed diag) ∧
    Event.transcodeFailNotice url ∈ (handle_document (some d) w).events ∧
    messageText (Event.transcodeFailNotice url)
      = some ("❌ Failed to download or convert URL:\n" ++ url) ∧
    Event.progressRetract (k + 1) ∈ (handle_document (some d) w).events ∧
    (∀ t', Event.sendVideo (k + 1) t' ∉ (handle_document (some d) w).events) ∧
    (∀ dd, Event.deliveryFailNotice (k + 1) dd ∉ (handle_document (some d) w).events) ∧
    (∀ u', (filterUrls d.lines)[k + 1]? = some u' →
        Event.progressCreate (k + 2) (filterUrls d.lines).length u'
          ∈ (handle_document (some d) w).events) ∧
    (handle_document (some d) (scrubDiag w)).events
      = (handle_document (some d) w).events := by
  have hlen : k < (filterUrls d.lines).length :=
    (List.getElem?_eq_some_iff.mp hget).choose
  have htake : ((filterUrls d.lines).take k).length = k := by
    simp [List.length_take]
    omega
  have hnf : itemNonFatal w (k + 1) url = true := by
    simp [itemNonFatal, htr, hret, TranscodeResult.isLaunch]
  have hblk : (processItem w (k + 1) (filterUrls d.lines).length url).1 =
      [.progressCreate (k + 1) (filterUrls d.lines).length url,
       .chatAction (k + 1), .fileWrite (videoFile (k + 1)),
       .transcodeFailNotice url, .progressRetract (k + 1)] := by
    simp [processItem, htr, hret]
  have hoc : itemOutcome w (k + 1) url = .TranscodeFailed diag := by
    simp [itemOutcome, htr]
  have hA := handle_document_at htxt hget hpre hnf
  have hout : (handle_document (some d) w).outcomes =
      expectedOutcomes w 1 ((filterUrls d.lines).take k)
        ++ (itemOutcome w (k + 1) url
            :: (runItems w (filterUrls d.lines).length (k + 2)
                  ((filterUrls d.lines).drop (k + 1))).outcomes) := by
    rw [hA]
  have hev : (handle_document (some d) w).events =
      [.workspaceCreate, .fileWrite ("urls.txt"),
       .replyStart (filterUrls d.lines).length]
        ++ (blockJoin w (filterUrls d.lines).length 1 ((filterUrls d.lines).take k)
            ++ ((processItem w (k + 1) (filterUrls d.lines).length url).1
                ++ (runItems w (filterUrls d.lines).length (k + 2)
                      ((filterUrls d.lines).drop (k + 1))).events))
        ++ (if (runItems w (filterUrls d.lines).length (k + 2)
                  ((filterUrls d.lines).drop (k + 1))).aborted
            then [] else [.replyAllDone])
        ++ [.workspaceDelete] := by
    rw [hA]
  have hexl : (expectedOutcomes w 1 ((filterUrls d.lines).take k)).length = k := by
    rw [expectedOutcomes_length, htake]
  refine ⟨?_, ?_, rfl, ?_, ?_, ?_, ?_, scrubDiag_handle_events (some d) w⟩
  · have hpos := getElem?_append_cons
      (expectedOutcomes w 1 ((filterUrls d.lines).take k))
      (itemOutcome w (k + 1) url)
      (runItems w (filterUrls d.lines).length (k + 2)
        ((filterUrls d.lines).drop (k + 1))).outcomes
    rw [hexl, hoc] at hpos
    rw [hout, hoc]
    exact hpos
  · rw [hev]
    have hmemblk : Event.transcodeFailNotice url
        ∈ (processItem w (k + 1) (filterUrls d.lines).length url).1 := by
      rw [hblk]; simp
    simp only [List.mem_append]
    tauto
  · rw [hev]
    have hmemret : Event.progressRetract (k + 1)
        ∈ (processItem w (k + 1) (filterUrls d.lines).length url).1 := by
      rw [hblk]; simp
    simp only [List.mem_append]
    tauto
  · intro t'
    rw [hev]
    intro hmem
    simp only [List.mem_append] at hmem
    rcases hmem with (((hp | (hbj | (hblkm | hre))) | hc) | hd)
    · simp at hp
    · exact sendVideo_notin_blockJoin (by rw [htake]; omega) hbj
    · rw [hblk] at hblkm; simp at hblkm
    · exact sendVideo_notin_runItems (by omega) hre
    · exact absurd (mem_ifAllDone hc) (by simp)
    · simp at hd
  · intro dd
    rw [hev]
    intro hmem
    simp only [List.mem_append] at hmem
    rcases hmem with (((hp | (hbj | (hblkm | hre))) | hc) | hd)
    · simp at hp
    · exact deliveryFail_notin_blockJoin (by rw [htake]; omega) hbj
    · rw [hblk] at hblkm; simp at hblkm
    · exact deliveryFail_notin_runItems (by omega) hre
    · exact absurd (mem_ifAllDone hc) (by simp)
    · simp at hd
  · intro u' hget'
    rw [hev]
    have hcr : Event.progressCreate (k + 2) (filterUrls d.lines).length u'
        ∈ (runItems w (filterUrls d.lines).length (k + 2)
             ((filterUrls d.lines).drop (k + 1))).events := by
      rw [drop_cons_of_getElem hget']
      by_cases h2 : itemNonFatal w (k + 2) u' = true
      · rw [runItems_cons_nonFatal _ _ h2]
        exact List.mem_append.mpr (Or.inl (processItem_create_mem w (k + 2) _ u'))
      · rw [runItems_cons_fatal _ _ (Bool.eq_false_iff.mpr h2)]
        exact processItem_create_mem w (k + 2) _ u'
    simp only [List.mem_append]
    tauto

theorem c1_transcode_failure_witness :
    (pyEndsWith (pyLower docTwo.file_name) ".txt" = true ∧
     (filterUrls docTwo.lines)[0]? = some ("http://h/a.mpd") ∧
     allNonFatal wTranscodeFail1 1 ((filterUrls docTwo.lines).take 0) = true ∧
     wTranscodeFail1.transcode 1 "http://h/a.mpd"
       = .nonzeroExit ("exit status 1") ∧
     wTranscodeFail1.retract 1 = .ok) ∧
    (handle_document (some docTwo) wTranscodeFail1).outcomes[0]?
      = some (Outcome.TranscodeFailed ("exit status 1")) :=
  ⟨⟨by decide, by decide, by decide, by decide, by decide⟩,
   (c1_transcode_failure docTwo wTranscodeFail1 0 "http://h/a.mpd" "exit status 1"
     (by decide) (by decide) (by decide) (by decide) (by decide)).1⟩

/-- C2: when the transcode step of item `k + 1` succeeds but delivery
raises (and every earlier item completed, and the retraction call
returns), the outcome recorded at position `k` is `DeliveryFailed` — never
`TranscodeFailed` — the failure notice carrying the exception detail is
emitted with exactly the text of line 133 (the detail appended at the
end), the progress message is still retracted, and the next item (when
there is one) still gets its progress message. -/
theorem c2_delivery_failure (d : Document) (w : World) (k : Nat) (url detail : String)
    (htxt : pyEndsWith (pyLower d.file_name) ".txt" = true)
    (hget : (filterUrls d.lines)[k]? = some url)
    (hpre : allNonFatal w 1 ((filterUrls d.lines).take k) = true)
    (htr : w.transcode (k + 1) url = .ok)
    (hdel : w.deliver (k + 1) = .exn detail)
    (hret : w.retract (k + 1) = .ok) :
    (handle_document (some d) w).outcomes[k]? = some (Outcome.DeliveryFailed detail) ∧
    (∀ r, (handle_document (some d) w).outcomes[k]?
      ≠ some (Outcome.TranscodeFailed r)) ∧
    Event.deliveryFailNotice (k + 1) detail ∈ (handle_document (some d) w).events ∧
    messageText (Event.deliveryFailNotice (k + 1) detail)
      = some (("❌ Failed to send video " ++ toString (k + 1) ++ ".\nError: ")
          ++ detail) ∧
    Event.progressRetract (k + 1) ∈ (handle_document (some d) w).events ∧
    (∀ u', (filterUrls d.lines)[k + 1]? = some u' →
        Event.progressCreate (k + 2) (filterUrls d.lines).length u'
          ∈ (handle_document (some d) w).events) := by
  have hnf : itemNonFatal w (k + 1) url = true := by
    simp [itemNonFatal, htr, hret, TranscodeResult.isLaunch]
  have hblk : (processItem w (k + 1) (filterUrls d.lines).length url).1 =
      [.progressCreate (k + 1) (filterUrls d.lines).length url,
       .chatAction (k + 1), .fileWrite (videoFile (k + 1)),
       .deliveryFailNotice (k + 1) detail, .progressRetract (k + 1)] := by
    simp [processItem, htr, hdel, hret]
  have hoc : itemOutcome w (k + 1) url = .DeliveryFailed detail := by
    simp [itemOutcome, htr, hdel]
  have hlen : k < (filterUrls d.lines).length :=
    (List.getElem?_eq_some_iff.mp hget).choose
  have htake : ((filterUrls d.lines).take k).length = k := by
    simp [List.length_take]
    omega
  have hA := handle_document_at htxt hget hpre hnf
  have hout : (handle_document (some d) w).outcomes =
      expectedOutcomes w 1 ((filterUrls d.lines).take k)
        ++ (itemOutcome w (k + 1) url
            :: (runItems w (filterUrls d.lines).length (k + 2)
                  ((filterUrls d.lines).drop (k + 1))).outcomes) := by
    rw [hA]
  have hev : (handle_document (some d) w).events =
      [.workspaceCreate, .fileWrite ("urls.txt"),
       .replyStart (filterUrls d.lines).length]
        ++ (blockJoin w (filterUrls d.lines).length 1 ((filterUrls d.lines).take k)
            ++ ((processItem w (k + 1) (filterUrls d.lines).length url).1
                ++ (runItems w (filterUrls d.lines).length (k + 2)
                      ((filterUrls d.lines).drop (k + 1))).events))
        ++ (if (runItems w (filterUrls d.lines).length (k + 2)
                  ((filterUrls d.lines).drop (k + 1))).aborted
            then [] else [.replyAllDone])
        ++ [.workspaceDelete] := by
    rw [hA]
  have hexl : (expectedOutcomes w 1 ((filterUrls d.lines).take k)).length = k := by
    rw [expectedOutcomes_length, htake]
  have hq : (handle_document (some d) w).outcomes[k]?
      = some (Outcome.DeliveryFailed detail) := by
    have hpos := getElem?_append_cons
      (expectedOutcomes w 1 ((filterUrls d.lines).take k))
      (itemOutcome w (k + 1) url)
      (runItems w (filterUrls d.lines).length (k + 2)
        ((filterUrls d.lines).drop (k + 1))).outcomes
    rw [hexl, hoc] at hpos
    rw [hout, hoc]
    exact hpos
  refine ⟨hq, ?_, ?_, rfl, ?_, ?_⟩
  · intro r hcontra
    rw [hq] at hcontra
    simp at hcontra
  · rw [hev]
    have hmemblk : Event.deliveryFailNotice (k + 1) detail
        ∈ (processItem w (k + 1) (filterUrls d.lines).length url).1 := by
      rw [hblk]; simp
    simp only [List.mem_append]
    tauto
  · rw [hev]
    have hmemret : Event.progressRetract (k + 1)
        ∈ (processItem w (k + 1) (filterUrls d.lines).length url).1 := by
      rw [hblk]; simp
    simp only [List.mem_append]
    tauto
  · intro u' hget'
    rw [hev]
    have hcr : Event.progressCreate (k + 2) (filterUrls d.lines).length u'
        ∈ (runItems w (filterUrls d.lines).length (k + 2)
             ((filterUrls d.lines).drop (k + 1))).events := by
      rw [drop_cons_of_getElem hget']
      by_cases h2 : itemNonFatal w (k + 2) u' = true
      · rw [runItems_cons_nonFatal _ _ h2]
        exact List.mem_append.mpr (Or.inl (processItem_create_mem w (k + 2) _ u'))
      · rw [runItems_cons_fatal _ _ (Bool.eq_false_iff.mpr h2)]
        exact processItem_create_mem w (k + 2) _ u'
    simp only [List.mem_append]
    tauto

theorem c2_delivery_failure_witness :
    (pyEndsWith (pyLower docTwo.file_name) ".txt" = true ∧
     (filterUrls docTwo.lines)[0]? = some ("http://h/a.mpd") ∧
     allNonFatal wDeliverFail1 1 ((filterUrls docTwo.lines).take 0) = true ∧
     wDeliverFail1.transcode 1 "http://h/a.mpd" = .ok ∧
     wDeliverFail1.deliver 1 = .exn ("file too large") ∧
     wDeliverFail1.retract 1 = .ok) ∧
    (handle_document (some docTwo) wDeliverFail1).outcomes[0]?
      = some (Outcome.DeliveryFailed ("file too large")) :=
  ⟨⟨by decide, by decide, by decide, by decide, by decide, by decide⟩,
   (c2_delivery_failure docTwo wDeliverFail1 0 "http://h/a.mpd" "file too large"
     (by decide) (by decide) (by decide) (by decide) (by decide) (by decide)).1⟩

/-- C7 counterexample: with ffmpeg failing to launch for item 1 (a launch
failure is an `OSError`, not the `CalledProcessError` caught at line 118),
the run aborts: no outcome is recorded for the item, no per-item failure
notice is sent, item 2 is never started and no completion reply is sent —
the error does unwind past the per-item loop, contradicting the statement
that every transcode failure (including launch failure) is caught at the
item boundary. -/
theorem c7_counterexample :
    handle_document (some docTwo) wLaunchFail1 =
      ⟨[.workspaceCreate, .fileWrite ("urls.txt"), .replyStart 2,
        .progressCreate 1 2 "http://h/a.mpd", .chatAction 1,
        .workspaceDelete], [], true⟩ ∧
    Event.transcodeFailNotice ("http://h/a.mpd")
      ∉ (handle_document (some docTwo) wLaunchFail1).events ∧
    Event.progressCreate 2 2 "http://h/b.mpd"
      ∉ (handle_document (some docTwo) wLaunchFail1).events ∧
    Event.replyAllDone ∉ (handle_document (some docTwo) wLaunchFail1).events :=
  ⟨by decide, by decide, by decide, by decide⟩

/-- C7 amended: a transcode failure reported as a non-zero exit status is
caught at the item boundary and converted into a recorded outcome plus a
user notice; but a failure to launch the tool is NOT caught — it unwinds
past the per-item loop, aborting the batch with no outcome and no notice
for that item and no completion reply, though the workspace is still
removed on the way out. -/
theorem c7_launch_failure_aborts (d : Document) (w : World) (k : Nat) (url msg : String)
    (htxt : pyEndsWith (pyLower d.file_name) ".txt" = true)
    (hget : (filterUrls d.lines)[k]? = some url)
    (hpre : allNonFatal w 1 ((filterUrls d.lines).take k) = true)
    (htr : w.transcode (k + 1) url = .launchFailure msg) :
    (handle_document (some d) w).fatal = true ∧
    (handle_document (some d) w).outcomes.length = k ∧
    Event.replyAllDone ∉ (handle_document (some d) w).events ∧
    (∀ u0, Event.transcodeFailNotice u0
      ∉ (processItem w (k + 1) (filterUrls d.lines).length url).1) ∧
    (handle_document (some d) w).events.getLast? = some Event.workspaceDelete ∧
    (∀ i u dg, w.transcode i u = .nonzeroExit dg → w.retract i = .ok →
      (processItem w i (filterUrls d.lines).length u).2
        = some (Outcome.TranscodeFailed dg)) := by
  have hlen : k < (filterUrls d.lines).length :=
    (List.getElem?_eq_some_iff.mp hget).choose
  have htake : ((filterUrls d.lines).take k).length = k := by
    simp [List.length_take]
    omega
  have hfatal : itemNonFatal w (k + 1) url = false := by
    simp [itemNonFatal, htr, TranscodeResult.isLaunch]
  have hblk : (processItem w (k + 1) (filterUrls d.lines).length url).1 =
      [.progressCreate (k + 1) (filterUrls d.lines).length url,
       .chatAction (k + 1)] := by
    simp [processItem, htr]
  have hR : runItems w (filterUrls d.lines).length (k + 1)
      ((filterUrls d.lines).drop k) =
      ⟨(processItem w (k + 1) (filterUrls d.lines).length url).1, [], true⟩ := by
    rw [drop_cons_of_getElem hget, runItems_cons_fatal _ _ hfatal]
  have hA := handle_document_split htxt hget hpre
  rw [hR] at hA
  have hev : (handle_document (some d) w).events =
      ([.workspaceCreate, .fileWrite ("urls.txt"),
        .replyStart (filterUrls d.lines).length]
        ++ (blockJoin w (filterUrls d.lines).length 1 ((filterUrls d.lines).take k)
            ++ (processItem w (k + 1) (filterUrls d.lines).length url).1))
        ++ [.workspaceDelete] := by
    rw [hA]
    simp
  refine ⟨by rw [hA], ?_, ?_, ?_, ?_, ?_⟩
  · rw [hA]
    show (expectedOutcomes w 1 ((filterUrls d.lines).take k) ++ []).length = k
    rw [List.append_nil, expectedOutcomes_length, htake]
  · rw [hev]
    intro hmem
    rcases List.mem_append.mp hmem with hmem1 | hd
    · rcases List.mem_append.mp hmem1 with hp | hmem2
      · simp at hp
      · rcases List.mem_append.mp hmem2 with hbj | hblkm
        · exact replyAllDone_notin_blockJoin w _ 1 _ hbj
        · rw [hblk] at hblkm
          simp at hblkm
    · simp at hd
  · intro u0 hmem
    rw [hblk] at hmem
    simp at hmem
  · rw [hev]
    exact List.getLast?_concat _
  · intro i u dg h1 h2
    simp [processItem, h1, h2]

theorem c7_launch_failure_aborts_witness :
    (pyEndsWith (pyLower docTwo.file_name) ".txt" = true ∧
     (filterUrls docTwo.lines)[0]? = some ("http://h/a.mpd") ∧
     allNonFatal wLaunchFail1 1 ((filterUrls docTwo.lines).take 0) = true ∧
     wLaunchFail1.transcode 1 "http://h/a.mpd" = .launchFailure ("ffmpeg not found")) ∧
    (handle_document (some docTwo) wLaunchFail1).fatal = true :=
  ⟨⟨by decide, by decide, by decide, by decide⟩,
   (c7_launch_failure_aborts docTwo wLaunchFail1 0 "http://h/a.mpd" "ffmpeg not found"
     (by decide) (by decide) (by decide) (by decide)).1⟩

/-- C8 counterexample: when retracting item 1's progress message raises
(`progress_msg.delete()` at line 134 is not inside any try/except), the
exception propagates as a batch error: the video of item 1 was even sent,
yet item 2 is never started and no completion reply is sent — the batch
does not continue, contradicting the statement that a retraction failure
never propagates. -/
theorem c8_counterexample :
    handle_document (some docTwo) wRetractFail1 =
      ⟨[.workspaceCreate, .fileWrite ("urls.txt"), .replyStart 2,
        .progressCreate 1 2 "http://h/a.mpd", .chatAction 1,
        .fileWrite ("video_1.mp4"), .sendVideo 1 2,
        .workspaceDelete], [], true⟩ ∧
    Event.progressCreate 2 2 "http://h/b.mpd"
      ∉ (handle_document (some docTwo) wRetractFail1).events ∧
    Event.replyAllDone ∉ (handle_document (some docTwo) wRetractFail1).events :=
  ⟨by decide, by decide, by decide⟩

/-- C8 amended: a failure of progress-message retraction is NOT swallowed:
for an item whose ffmpeg run was launched (any exit status) but whose
`delete()` call raises, the exception unwinds past the loop — the batch
aborts, no outcome is recorded for that item, the next item is never
started, no completion reply is sent — though the workspace is still
removed on the way out. -/
theorem c8_retract_failure_aborts (d : Document) (w : World) (k : Nat) (url m : String)
    (htxt : pyEndsWith (pyLower d.file_name) ".txt" = true)
    (hget : (filterUrls d.lines)[k]? = some url)
    (hpre : allNonFatal w 1 ((filterUrls d.lines).take k) = true)
    (hnl : (w.transcode (k + 1) url).isLaunch = false)
    (hret : w.retract (k + 1) = .exn m) :
    (handle_document (some d) w).fatal = true ∧
    (handle_document (some d) w).outcomes.length = k ∧
    Event.replyAllDone ∉ (handle_document (some d) w).events ∧
    (∀ tt u', Event.progressCreate (k + 2) tt u'
      ∉ (handle_document (some d) w).events) ∧
    (handle_document (some d) w).events.getLast? = some Event.workspaceDelete := by
  have hlen : k < (filterUrls d.lines).length :=
    (List.getElem?_eq_some_iff.mp hget).choose
  have htake : ((filterUrls d.lines).take k).length = k := by
    simp [List.length_take]
    omega
  have hfatal : itemNonFatal w (k + 1) url = false := by
    simp [itemNonFatal, hret]
  have hR : runItems w (filterUrls d.lines).length (k + 1)
      ((filterUrls d.lines).drop k) =
      ⟨(processItem w (k + 1) (filterUrls d.lines).length url).1, [], true⟩ := by
    rw [drop_cons_of_getElem hget, runItems_cons_fatal _ _ hfatal]
  have hA := handle_document_split htxt hget hpre
  rw [hR] at hA
  have hev : (handle_document (some d) w).events =
      ([.workspaceCreate, .fileWrite ("urls.txt"),
        .replyStart (filterUrls d.lines).length]
        ++ (blockJoin w (filterUrls d.lines).length 1 ((filterUrls d.lines).take k)
            ++ (processItem w (k + 1) (filterUrls d.lines).length url).1))
        ++ [.workspaceDelete] := by
    rw [hA]
    simp
  refine ⟨by rw [hA], ?_, ?_, ?_, ?_⟩
  · rw [hA]
    show (expectedOutcomes w 1 ((filterUrls d.lines).take k) ++ []).length = k
    rw [List.append_nil, expectedOutcomes_length, htake]
  · rw [hev]
    intro hmem
    rcases List.mem_append.mp hmem with hmem1 | hd
    · rcases List.mem_append.mp hmem1 with hp | hmem2
      · simp at hp
      · rcases List.mem_append.mp hmem2 with hbj | hblkm
        · exact replyAllDone_notin_blockJoin w _ 1 _ hbj
        · exact replyAllDone_not_mem_processItem w (k + 1) _ url hblkm
    · simp at hd
  · intro tt u'
    rw [hev]
    intro hmem
    rcases List.mem_append.mp hmem with hmem1 | hd
    · rcases List.mem_append.mp hmem1 with hp | hmem2
      · simp at hp
      · rcases List.mem_append.mp hmem2 with hbj | hblkm
        · exact create_notin_blockJoin (by rw [htake]; omega) hbj
        · have := (mem_processItem_create hblkm).1
          omega
    · simp at hd
  · rw [hev]
    exact List.getLast?_concat _

theorem c8_retract_failure_aborts_witness :
    (pyEndsWith (pyLower docTwo.file_name) ".txt" = true ∧
     (filterUrls docTwo.lines)[0]? = some ("http://h/a.mpd") ∧
     allNonFatal wRetractFail1 1 ((filterUrls docTwo.lines).take 0) = true ∧
     (wRetractFail1.transcode 1 "http://h/a.mpd").isLaunch = false ∧
     wRetractFail1.retract 1 = .exn ("message to delete not found")) ∧
    (handle_document (some docTwo) wRetractFail1).fatal = true :=
  ⟨⟨by decide, by decide, by decide, by decide, by decide⟩,
   (c8_retract_failure_aborts docTwo wRetractFail1 0 "http://h/a.mpd"
     "message to delete not found"
     (by decide) (by decide) (by decide) (by decide) (by decide)).1⟩
